import Mathlib

/-!
Verification development for `tools/frame_generator.py` of the iPad photobooth
frame-overlay generator.

The Python source is shallowly embedded:
* colors and pixels are integer tuples / structures over `Int`;
* an image is a function from pixel coordinates to an RGBA value, built by
  applying the drawing operations of the source in their program order
  (a later operation overrides the pixel values of an earlier one exactly
  where it draws);
* Python `//` (floor division) is `Int.fdiv`, Python `int()` applied to a
  nonnegative-denominator rational `p/q` (truncation toward zero) is
  `Int.tdiv p q`; real-valued intermediates of the source are modelled by
  exact rational arithmetic;
* Pillow's `rounded_rectangle` fill is modelled geometrically: a pixel is
  inside iff it is inside the bounding box and within the rounded-corner
  signed-distance test, with the corner radius clamped to half the box side
  (as Pillow clamps the corner diameter to the box sides); an `outline` of
  width `k` covers the shape minus the shape inset by `k`; `ellipse` with a
  square bounding box covers the closed disc;
* file-system dependent inputs (fonts, logo files) are explicit environment
  parameters.
-/

/-! ## Pixels and colors -/

structure Rgba where
  r : Int
  g : Int
  b : Int
  a : Int
deriving DecidableEq, Repr

/-- The fully transparent pixel `(0, 0, 0, 0)`. -/
def clearPx : Rgba := ⟨0, 0, 0, 0⟩

/-- Build an RGBA pixel from an RGB triple and an alpha value
(the shape of `hex_to_rgba`'s result). -/
def rgbaOf (c : Int × Int × Int) (a : Int) : Rgba := ⟨c.1, c.2.1, c.2.2, a⟩

/-! ## Color utility: model of Python `int(s, 16)` and `hex_to_rgb` -/

/-- ASCII whitespace accepted (and stripped) by Python `int()`. -/
def isPySpace (c : Char) : Bool :=
  c.toNat = 32 || c.toNat = 9 || c.toNat = 10 || c.toNat = 13 ||
    c.toNat = 11 || c.toNat = 12

/-- Hexadecimal digit: `0-9`, `a-f`, `A-F`. -/
def isHexDigit (c : Char) : Bool :=
  (48 ≤ c.toNat && c.toNat ≤ 57) || (97 ≤ c.toNat && c.toNat ≤ 102) ||
    (65 ≤ c.toNat && c.toNat ≤ 70)

/-- Numeric value of a hexadecimal digit. -/
def hexDigitVal (c : Char) : Nat :=
  if c.toNat ≤ 57 then c.toNat - 48
  else if c.toNat ≤ 70 then c.toNat - 55
  else c.toNat - 87

/-- Digit run of a Python base-16 integer literal after the first digit:
single underscores are allowed between digits, never doubled or trailing. -/
def hexDigitsCore (acc : Nat) : List Char → Option Nat
  | [] => some acc
  | c :: rest =>
    if c = '_' then
      match rest with
      | c2 :: rest2 =>
        if isHexDigit c2 then hexDigitsCore (acc * 16 + hexDigitVal c2) rest2 else none
      | [] => none
    else if isHexDigit c then hexDigitsCore (acc * 16 + hexDigitVal c) rest else none

/-- Digit run of a Python base-16 integer literal: nonempty, starts with a
digit, single underscores allowed between digits. -/
def parseHexDigits : List Char → Option Nat
  | [] => none
  | c :: rest => if isHexDigit c then hexDigitsCore (hexDigitVal c) rest else none

/-- Drop a single leading underscore (allowed right after the `0x` marker). -/
def skipOneUnderscore : List Char → List Char
  | c :: rest => if c = '_' then rest else c :: rest
  | [] => []

/-- Unsigned part of a Python base-16 integer literal: an optional `0x`/`0X`
marker followed by the digit run. -/
def parseHexBody (cs : List Char) : Option Nat :=
  match cs with
  | c0 :: c1 :: rest =>
    if c0 = '0' ∧ (c1 = 'x' ∨ c1 = 'X') then parseHexDigits (skipOneUnderscore rest)
    else parseHexDigits (c0 :: c1 :: rest)
  | _ => parseHexDigits cs

/-- Strip leading and trailing ASCII whitespace. -/
def stripPySpaces (cs : List Char) : List Char :=
  ((cs.dropWhile isPySpace).reverse.dropWhile isPySpace).reverse

/-- Model of Python `int(s, 16)`: optional surrounding whitespace, optional
sign, optional `0x`/`0X` marker, then hex digits with single underscores.
Returns `none` where Python raises `ValueError`. -/
def pyIntBase16 (s : String) : Option Int :=
  match stripPySpaces s.toList with
  | [] => none
  | c :: rest =>
    if c = '+' then (parseHexBody rest).map (fun n => (n : Int))
    else if c = '-' then (parseHexBody rest).map (fun n => -(n : Int))
    else (parseHexBody (c :: rest)).map (fun n => (n : Int))

/-- Python slice `cs[i:i+2]`. -/
def pySlice (cs : List Char) (i : Nat) : List Char := (cs.drop i).take 2

/-- Model of `hex_to_rgb` from the source: `hex_color.lstrip('#')` (drops every leading
`#`), then `int(hex_color[i:i+2], 16)` for `i` in `(0, 2, 4)`.
`none` models the `ValueError` Python raises on a non-parsing slice. -/
def hex_to_rgb (s : String) : Option (Int × Int × Int) :=
  let t := s.toList.dropWhile (fun c => c = '#')
  match pyIntBase16 (String.mk (pySlice t 0)), pyIntBase16 (String.mk (pySlice t 2)),
      pyIntBase16 (String.mk (pySlice t 4)) with
  | some r, some g, some b => some (r, g, b)
  | _, _, _ => none

/-- Model of `hex_to_rgba` from the source: the RGB triple of `hex_to_rgb` with the
given alpha appended unchanged (default `255`). -/
def hex_to_rgba (s : String) (alpha : Int := 255) : Option (Int × Int × Int × Int) :=
  match hex_to_rgb s with
  | some (r, g, b) => some (r, g, b, alpha)
  | none => none

/-- The spec's validity condition for a color string: after stripping one
optional leading `#`, exactly 6 hexadecimal digits. -/
def specSixHexTail (s : String) : List Char :=
  match s.toList with
  | x :: t => if x = '#' then t else x :: t
  | [] => []

/-- Spec predicate: `s` is a 6-hex-digit color string with an optional
leading `#`. -/
def isValidSixHex (s : String) : Bool :=
  (specSixHexTail s).length = 6 && (specSixHexTail s).all isHexDigit

/-! ## Geometry of Pillow's drawing primitives

`rounded_rectangle(xy, radius, fill)` is modelled geometrically: a pixel is
covered iff it lies in the bounding box and passes the rounded-corner
distance test, the radius being clamped to half of each box side (Pillow
clamps the corner diameter to the box sides).  An `outline` of width `k`
covers the shape minus the shape inset by `k` with radius reduced by `k`.
`ellipse` over the square box `(cx-rad, cy-rad)-(cx+rad, cy+rad)` covers the
closed disc of radius `rad`.  Note `/` on `Int` below is floor division for
the positive divisors used, matching Python `//`. -/

/-- Corner radius clamped to half of each bounding-box side. -/
def effRadius (a b c d r : Int) : Int :=
  max 0 (min r (min ((c - a) / 2) ((d - b) / 2)))

/-- Distance from `x` to the interval `[lo, hi]` (`0` inside it). -/
def edgeGap (lo hi x : Int) : Int := max 0 (max (lo - x) (x - hi))

/-- Pixel membership in the filled rounded rectangle with bounding box
`(a, b)`–`(c, d)` and corner radius `r`. -/
def inRR (a b c d r x y : Int) : Prop :=
  a ≤ x ∧ x ≤ c ∧ b ≤ y ∧ y ≤ d ∧
    edgeGap (a + effRadius a b c d r) (c - effRadius a b c d r) x *
        edgeGap (a + effRadius a b c d r) (c - effRadius a b c d r) x +
      edgeGap (b + effRadius a b c d r) (d - effRadius a b c d r) y *
        edgeGap (b + effRadius a b c d r) (d - effRadius a b c d r) y ≤
      effRadius a b c d r * effRadius a b c d r

instance (a b c d r x y : Int) : Decidable (inRR a b c d r x y) := by
  unfold inRR; exact inferInstance

/-- Pixel membership in the ring painted by `rounded_rectangle` with
`outline=...` and `width=k`: in the shape but not in the shape inset by `k`. -/
def onRRoutline (a b c d r k x y : Int) : Prop :=
  inRR a b c d r x y ∧ ¬inRR (a + k) (b + k) (c - k) (d - k) (r - k) x y

instance (a b c d r k x y : Int) : Decidable (onRRoutline a b c d r k x y) := by
  unfold onRRoutline; exact inferInstance

/-- Pixel membership in the closed disc drawn by `ellipse` over the square
bounding box centered at `(cx, cy)` with radius `rad`. -/
def inDisc (cx cy rad x y : Int) : Prop :=
  (x - cx) * (x - cx) + (y - cy) * (y - cy) ≤ rad * rad

instance (cx cy rad x y : Int) : Decidable (inDisc cx cy rad x y) := by
  unfold inDisc; exact inferInstance

/-- Model of `create_rounded_rectangle_mask` from the source: a single-channel mask,
`255` inside the rounded rectangle spanning `(0,0)`–`(w-1,h-1)`, else `0`. -/
def create_rounded_rectangle_mask (w h radius x y : Int) : Int :=
  if inRR 0 0 (w - 1) (h - 1) radius x y then 255 else 0

/-! ## Frame generators

An image is a function from `(x, y)` to an RGBA pixel; the drawing steps of
each Python generator are applied in program order, a later step overriding
the earlier value exactly where it draws.  Colors enter the generators
already parsed to RGB triples (the source parses them on entry via
`hex_to_rgb`/`hex_to_rgba`, modelled above).  Python `//` is `Int.fdiv`;
Python `int()` of an exact nonneg-denominator rational is `Int.tdiv`. -/

def IPAD_WIDTH : Int := 2048

def IPAD_HEIGHT : Int := 2732

def DEFAULT_BORDER_WIDTH : Int := 80

def DEFAULT_CORNER_RADIUS : Int := 60

/-- Glow ring alpha `int(80 * (1 - i / glow_width))`, computed exactly. -/
def glowAlphaVal (gw i : Int) : Int := Int.tdiv (80 * (gw - i)) gw

/-- Model of `generate_simple_border_frame`: outer rounded fill, interior cutout at
inset `border_width` with radius `max 0 (corner_radius - border_width // 2)`,
then (optionally) `border_width // 3` one-pixel glow outlines at offsets
`border_width - glow_width + i`. -/
def generate_simple_border_frame (width height border_width : Int)
    (border_color : Int × Int × Int) (corner_radius : Int) (inner_glow : Bool)
    (x y : Int) : Rgba :=
  let color_rgba := rgbaOf border_color 255
  let base := if inRR 0 0 (width - 1) (height - 1) corner_radius x y then color_rgba else clearPx
  let inner_radius := max 0 (corner_radius - Int.fdiv border_width 2)
  let afterCut :=
    if inRR border_width border_width (width - 1 - border_width) (height - 1 - border_width)
        inner_radius x y then clearPx
    else base
  if inner_glow then
    let glow_width := Int.fdiv border_width 3
    (List.range glow_width.toNat).foldl (fun acc (i : Nat) =>
      let offset := border_width - glow_width + (i : Int)
      if onRRoutline offset offset (width - 1 - offset) (height - 1 - offset)
          (max 0 (corner_radius - offset)) 1 x y then
        rgbaOf border_color (glowAlphaVal glow_width (i : Int))
      else acc) afterCut
  else afterCut

/-- Model of `generate_decorative_frame`: primary rounded fill, accent outline of
width 2 at inset `border_width // 4`, interior cutout, then (optionally) at
each of the four anchors `(border_width*2, border_width*2)` from the corners
an outer disc of radius 20 in the secondary color and an inner disc of
radius 10 in the accent color, in source order. -/
def generate_decorative_frame (width height : Int)
    (primary_color secondary_color accent_color : Int × Int × Int)
    (border_width : Int) (corner_style : String) (show_corners : Bool)
    (x y : Int) : Rgba :=
  let primary_rgba := rgbaOf primary_color 255
  let secondary_rgba := rgbaOf secondary_color 255
  let accent_rgba := rgbaOf accent_color 255
  let corner_radius := if corner_style = "rounded" then DEFAULT_CORNER_RADIUS else 0
  let base := if inRR 0 0 (width - 1) (height - 1) corner_radius x y then primary_rgba else clearPx
  let accent_offset := Int.fdiv border_width 4
  let afterAccent :=
    if onRRoutline accent_offset accent_offset (width - 1 - accent_offset)
        (height - 1 - accent_offset) (max 0 (corner_radius - accent_offset)) 2 x y then
      accent_rgba
    else base
  let inner_radius := max 0 (corner_radius - Int.fdiv border_width 2)
  let afterCut :=
    if inRR border_width border_width (width - 1 - border_width) (height - 1 - border_width)
        inner_radius x y then clearPx
    else afterAccent
  if show_corners then
    let corner_size := border_width * 2
    let corners : List (Int × Int) :=
      [(corner_size, corner_size), (width - corner_size, corner_size),
        (corner_size, height - corner_size), (width - corner_size, height - corner_size)]
    corners.foldl (fun acc cpt =>
      let acc2 := if inDisc cpt.1 cpt.2 20 x y then secondary_rgba else acc
      if inDisc cpt.1 cpt.2 10 x y then accent_rgba else acc2) afterCut
  else afterCut

/-- One interpolated channel of the gradient:
`int(s + (e - s) * (num / den))` in exact rational arithmetic. -/
def gradChannel (s e num den : Int) : Int := Int.tdiv (s * den + (e - s) * num) den

/-- Model of `generate_gradient_frame`: per-pixel interpolated border band, then the
outer rounded mask applied to the alpha channel only, then the interior
cutout pasting fully transparent pixels through the inner rounded mask. -/
def generate_gradient_frame (width height : Int)
    (start_color end_color : Int × Int × Int)
    (border_width : Int) (gradient_direction : String) (x y : Int) : Rgba :=
  let in_border := x < border_width ∨ x ≥ width - border_width ∨
    y < border_width ∨ y ≥ height - border_width
  let tfrac : Int × Int :=
    if gradient_direction = "horizontal" then (x, width)
    else if gradient_direction = "vertical" then (y, height)
    else (x + y, width + height)
  let base : Rgba :=
    if in_border then
      ⟨gradChannel start_color.1 end_color.1 tfrac.1 tfrac.2,
        gradChannel start_color.2.1 end_color.2.1 tfrac.1 tfrac.2,
        gradChannel start_color.2.2 end_color.2.2 tfrac.1 tfrac.2, 255⟩
    else clearPx
  let afterOuter : Rgba :=
    if create_rounded_rectangle_mask width height DEFAULT_CORNER_RADIUS x y = 255 then base
    else ⟨base.r, base.g, base.b, 0⟩
  let inner_w := width - border_width * 2
  let inner_h := height - border_width * 2
  let inner_radius := max 0 (DEFAULT_CORNER_RADIUS - Int.fdiv border_width 2)
  if inRR border_width border_width (border_width + inner_w - 1) (border_width + inner_h - 1)
      inner_radius x y then clearPx
  else afterOuter

/-- A loaded logo image: its size after `thumbnail` and its pixels. -/
structure LogoImage where
  wdt : Int
  hgt : Int
  px : Int → Int → Rgba

/-- File-system environment for the logo frame: `loadLogo` models
`Path(p).exists()` plus `Image.open(p).convert('RGBA')` (`none` when the file
does not exist), and `thumbLogo` models `Image.thumbnail((s, s), LANCZOS)`
(aspect-preserving shrink, resampling kept abstract). -/
structure FileEnv where
  loadLogo : String → Option LogoImage
  thumbLogo : LogoImage → Int → LogoImage

/-- Straight-alpha paste blend of `src` over `dst` through the alpha of
`src` (model of `Image.paste(logo, pos, logo)`). -/
def alphaBlend (dst src : Rgba) : Rgba :=
  ⟨Int.tdiv (dst.r * (255 - src.a) + src.r * src.a) 255,
    Int.tdiv (dst.g * (255 - src.a) + src.g * src.a) 255,
    Int.tdiv (dst.b * (255 - src.a) + src.b * src.a) 255,
    Int.tdiv (dst.a * (255 - src.a) + src.a * src.a) 255⟩

/-- The paste position computed by `generate_logo_frame` for a thumbnailed
logo of size `lw × lh`: the `bottom`/`top`/`corners` branches of the source,
with every other position value falling through to the bottom formula. -/
def logoPastePos (width height border_width : Int) (logo_position : String)
    (lw lh : Int) : Int × Int :=
  if logo_position = "bottom" then
    (Int.fdiv (width - lw) 2, height - border_width + Int.fdiv (border_width - lh) 2)
  else if logo_position = "top" then
    (Int.fdiv (width - lw) 2, Int.fdiv (border_width - lh) 2)
  else if logo_position = "corners" then
    (width - border_width + Int.fdiv (border_width - lw) 2,
      height - border_width + Int.fdiv (border_width - lh) 2)
  else
    (Int.fdiv (width - lw) 2, height - border_width + Int.fdiv (border_width - lh) 2)

/-- Whether the pixel `(x, y)` lies in the pasted logo rectangle. -/
def inPasteRect (pos : Int × Int) (lw lh x y : Int) : Prop :=
  pos.1 ≤ x ∧ x < pos.1 + lw ∧ pos.2 ≤ y ∧ y < pos.2 + lh

instance (pos : Int × Int) (lw lh x y : Int) : Decidable (inPasteRect pos lw lh x y) := by
  unfold inPasteRect; exact inferInstance

/-- Model of `generate_logo_frame`: a simple border frame (glow on, default corner
radius), then — only when the path is truthy and the file exists — the
thumbnailed logo alpha-pasted at the position selected by `logo_position`
(any unrecognized value falls through to the bottom placement). -/
def generate_logo_frame (env : FileEnv) (width height : Int)
    (logo_path : Option String) (primary_color : Int × Int × Int)
    (border_width : Int) (logo_position : String) (logo_size : Int)
    (x y : Int) : Rgba :=
  let frame := generate_simple_border_frame width height border_width primary_color
    DEFAULT_CORNER_RADIUS true x y
  match logo_path with
  | none => frame
  | some p =>
    if p = "" then frame
    else
      match env.loadLogo p with
      | none => frame
      | some logo0 =>
        let logo := env.thumbLogo logo0 logo_size
        let pos := logoPastePos width height border_width logo_position logo.wdt logo.hgt
        if inPasteRect pos logo.wdt logo.hgt x y then
          alphaBlend frame (logo.px (x - pos.1) (y - pos.2))
        else frame

/-! ## Text frame -/

inductive FontKind where
  | title
  | date
deriving DecidableEq, Repr

/-- A resolved font at a fixed pixel size: the measured bounding-box width of
a string, and the glyph coverage at an offset relative to the draw origin.
Font rasterization is environment-dependent and kept abstract. -/
structure FontFace where
  textWidth : String → Int
  covers : String → Int → Int → Bool

/-- Font environment: the outcome of the source's font-resolution chain
(explicit path if it exists → system font → built-in default) for a
requested path and pixel size. -/
structure FontEnv where
  resolveFont : Option String → Nat → FontFace

/-- Python truthiness of an optional string (`None` and `""` are falsy). -/
def pyTruthy : Option String → Bool
  | none => false
  | some s => s ≠ ""

/-- One centered-text draw call of the text frame: the string, its `y`
coordinate and which font (title 48 / date 32) it uses. -/
structure DrawOp where
  txt : String
  yPos : Int
  font : FontKind
deriving DecidableEq, Repr

/-- The list of `draw_centered_text` calls made by `generate_text_frame`, in
program order: the bottom block (name, then the date when truthy and
`date_y + 32 < height`), then the top block (the date offset 8px down when
`both` with a truthy date, else the name). -/
def textFrameOps (width height : Int) (event_name : String)
    (event_date : Option String) (border_width : Int) (text_position : String) :
    List DrawOp :=
  let bottomOps :=
    if text_position = "bottom" ∨ text_position = "both" then
      let text_y := height - border_width + Int.fdiv (border_width - 48) 2
      let nameOps := [DrawOp.mk event_name text_y FontKind.title]
      if pyTruthy event_date then
        let date_y := text_y + 50
        if date_y + 32 < height then
          nameOps ++ [DrawOp.mk (event_date.getD "") date_y FontKind.date]
        else nameOps
      else nameOps
    else []
  let topOps :=
    if text_position = "top" ∨ text_position = "both" then
      let text_y := Int.fdiv (border_width - 48) 2
      if text_position = "both" ∧ pyTruthy event_date then
        [DrawOp.mk (event_date.getD "") (text_y + 8) FontKind.date]
      else [DrawOp.mk event_name text_y FontKind.title]
    else []
  bottomOps ++ topOps

/-- The semi-transparent black drop shadow `(0, 0, 0, 128)`. -/
def shadowPx : Rgba := ⟨0, 0, 0, 128⟩

/-- The font a draw call uses: the 48px title font or the 32px date font. -/
def opFace (title_font date_font : FontFace) (op : DrawOp) : FontFace :=
  match op.font with
  | FontKind.title => title_font
  | FontKind.date => date_font

/-- Model of `draw_centered_text` at one pixel: the shadow pass at `(+2, +2)` then the
main text, each painting where the glyph coverage hits, with
`x = (width - textWidth) // 2`. -/
def applyDrawOp (title_font date_font : FontFace) (width : Int) (text_rgba : Rgba)
    (x y : Int) (acc : Rgba) (op : DrawOp) : Rgba :=
  let face := opFace title_font date_font op
  let tx := Int.fdiv (width - face.textWidth op.txt) 2
  let acc2 := if face.covers op.txt (x - (tx + 2)) (y - (op.yPos + 2)) then shadowPx else acc
  if face.covers op.txt (x - tx) (y - op.yPos) then text_rgba else acc2

/-- A draw call misses the pixel `(x, y)`: neither its shadow pass nor its
main pass covers it. -/
def opMisses (title_font date_font : FontFace) (width x y : Int) (op : DrawOp) : Prop :=
  (opFace title_font date_font op).covers op.txt
      (x - (Int.fdiv (width - (opFace title_font date_font op).textWidth op.txt) 2 + 2))
      (y - (op.yPos + 2)) = false ∧
    (opFace title_font date_font op).covers op.txt
      (x - Int.fdiv (width - (opFace title_font date_font op).textWidth op.txt) 2)
      (y - op.yPos) = false

instance (title_font date_font : FontFace) (width x y : Int) (op : DrawOp) :
    Decidable (opMisses title_font date_font width x y op) := by
  unfold opMisses; exact inferInstance

/-- Model of `generate_text_frame`: a simple border frame (glow on), then the centered
text draw calls of `textFrameOps` applied in order with the resolved title
(size 48) and date (size 32) fonts. -/
def generate_text_frame (env : FontEnv) (width height : Int) (event_name : String)
    (event_date : Option String) (primary_color text_color : Int × Int × Int)
    (border_width : Int) (text_position : String) (font_path : Option String)
    (x y : Int) : Rgba :=
  let frame := generate_simple_border_frame width height border_width primary_color
    DEFAULT_CORNER_RADIUS true x y
  let text_rgba := rgbaOf text_color 255
  let title_font := env.resolveFont font_path 48
  let date_font := env.resolveFont font_path 32
  (textFrameOps width height event_name event_date border_width text_position).foldl
    (applyDrawOp title_font date_font width text_rgba x y) frame

/-- All parameters of `generate_text_frame`, bundled. -/
structure TextParams where
  width : Int
  height : Int
  event_name : String
  event_date : Option String
  primary_color : Int × Int × Int
  text_color : Int × Int × Int
  border_width : Int
  text_position : String
  font_path : Option String

/-- The text frame as a whole image for a parameter bundle. -/
def textFrameImage (env : FontEnv) (p : TextParams) : Int → Int → Rgba :=
  fun x y => generate_text_frame env p.width p.height p.event_name p.event_date
    p.primary_color p.text_color p.border_width p.text_position p.font_path x y

/-! ### Sample environments (concrete instances used by witnesses) -/

/-- A simple concrete font face: glyph coverage is the axis-aligned box of
the measured text. -/
def sampleFontFace (size : Nat) : FontFace :=
  ⟨fun s => (size : Int) * s.length,
    fun s dx dy => decide (0 ≤ dx ∧ dx < (size : Int) * s.length ∧ 0 ≤ dy ∧ dy < (size : Int))⟩

/-- A concrete font environment resolving every request to the sample face. -/
def sampleFontEnv : FontEnv := ⟨fun _ size => sampleFontFace size⟩

/-- A concrete text-frame parameter bundle. -/
def sampleTextParams : TextParams :=
  ⟨2048, 2732, "Wedding", some "Jan 31, 2026", (255, 64, 129), (255, 255, 255),
    80, "bottom", none⟩

/-- A concrete file environment in which no logo file exists. -/
def emptyFileEnv : FileEnv := ⟨fun _ => none, fun logo _ => logo⟩

/-- A concrete file environment holding one 100×40 fully opaque white logo. -/
def oneLogoFileEnv : FileEnv :=
  ⟨fun p => if p = "logo.png" then some ⟨100, 40, fun _ _ => ⟨255, 255, 255, 255⟩⟩ else none,
    fun logo _ => logo⟩

/-! ### Lemmas about the hex parser -/

theorem hex_not_space {c : Char} (h : isHexDigit c = true) : isPySpace c = false := by
  simp only [isHexDigit, Bool.or_eq_true, Bool.and_eq_true, decide_eq_true_eq] at h
  simp only [isPySpace, Bool.or_eq_false_iff, decide_eq_false_iff_not]
  omega

theorem hex_ne_hash {c : Char} (h : isHexDigit c = true) : ¬(c = '#') := by
  rintro rfl; exact absurd h (by decide)

theorem hex_ne_plus {c : Char} (h : isHexDigit c = true) : ¬(c = '+') := by
  rintro rfl; exact absurd h (by decide)

theorem hex_ne_minus {c : Char} (h : isHexDigit c = true) : ¬(c = '-') := by
  rintro rfl; exact absurd h (by decide)

theorem hex_ne_xmark {c : Char} (h : isHexDigit c = true) : ¬(c = 'x') := by
  rintro rfl; exact absurd h (by decide)

theorem hex_ne_bigXmark {c : Char} (h : isHexDigit c = true) : ¬(c = 'X') := by
  rintro rfl; exact absurd h (by decide)

theorem hexDigitVal_lt {c : Char} (h : isHexDigit c = true) : hexDigitVal c < 16 := by
  simp only [isHexDigit, Bool.or_eq_true, Bool.and_eq_true, decide_eq_true_eq] at h
  simp only [hexDigitVal]
  split_ifs <;> omega

theorem parseHexDigits_pair {c1 c2 : Char} (h1 : isHexDigit c1 = true)
    (h2 : isHexDigit c2 = true) :
    parseHexDigits [c1, c2] = some (hexDigitVal c1 * 16 + hexDigitVal c2) := by
  have hu : ¬(c2 = '_') := by rintro rfl; exact absurd h2 (by decide)
  simp [parseHexDigits, hexDigitsCore, h1, h2, hu]

theorem pyIntBase16_pair {c1 c2 : Char} (h1 : isHexDigit c1 = true)
    (h2 : isHexDigit c2 = true) :
    pyIntBase16 (String.mk [c1, c2]) =
      some ((hexDigitVal c1 * 16 + hexDigitVal c2 : Nat) : Int) := by
  have hs1 : isPySpace c1 = false := hex_not_space h1
  have hs2 : isPySpace c2 = false := hex_not_space h2
  have htl : (String.mk [c1, c2]).toList = [c1, c2] := rfl
  have hstrip : stripPySpaces [c1, c2] = [c1, c2] := by
    simp [stripPySpaces, List.dropWhile, hs1, hs2]
  simp only [pyIntBase16, htl, hstrip]
  rw [if_neg (hex_ne_plus h1), if_neg (hex_ne_minus h1)]
  rw [parseHexBody]
  rw [if_neg (by
    rintro ⟨rfl, h⟩
    rcases h with rfl | rfl
    exacts [absurd h2 (by decide), absurd h2 (by decide)])]
  rw [parseHexDigits_pair h1 h2]
  rfl

theorem pyIntBase16_pair_bounds {c1 c2 : Char} (h1 : isHexDigit c1 = true)
    (h2 : isHexDigit c2 = true) :
    ((hexDigitVal c1 * 16 + hexDigitVal c2 : Nat) : Int) ≤ 255 := by
  have b1 := hexDigitVal_lt h1
  have b2 := hexDigitVal_lt h2
  omega

/-- A list of length 6 is a six-element list. -/
theorem sixList_shape (t : List Char) (h : t.length = 6) :
    ∃ a b c d e f, t = [a, b, c, d, e, f] := by
  rcases t with _ | ⟨a, t⟩; · simp at h
  rcases t with _ | ⟨b, t⟩; · simp at h
  rcases t with _ | ⟨c, t⟩; · simp at h
  rcases t with _ | ⟨d, t⟩; · simp at h
  rcases t with _ | ⟨e, t⟩; · simp at h
  rcases t with _ | ⟨f, t⟩; · simp at h
  rcases t with _ | ⟨g, t⟩
  · exact ⟨a, b, c, d, e, f, rfl⟩
  · simp only [List.length_cons] at h; omega

/-- If `s` is a valid 6-hex string (optional single `#`), the list obtained by
the source's `lstrip('#')` is exactly the six hexadecimal digits. -/
theorem lstrip_of_valid {s : String} (h : isValidSixHex s = true) :
    ∃ a b c d e f, s.toList.dropWhile (fun x => x = '#') = [a, b, c, d, e, f] ∧
      isHexDigit a = true ∧ isHexDigit b = true ∧ isHexDigit c = true ∧
      isHexDigit d = true ∧ isHexDigit e = true ∧ isHexDigit f = true := by
  simp only [isValidSixHex, Bool.and_eq_true, decide_eq_true_eq, List.all_eq_true] at h
  obtain ⟨hlen, hall⟩ := h
  obtain ⟨a, b, c, d, e, f, ht⟩ := sixList_shape _ hlen
  rw [ht] at hall
  have ha : isHexDigit a = true := hall a (by simp)
  refine ⟨a, b, c, d, e, f, ?_, ha, hall b (by simp), hall c (by simp),
    hall d (by simp), hall e (by simp), hall f (by simp)⟩
  unfold specSixHexTail at ht
  cases hsl : s.toList with
  | nil => simp only [hsl] at ht; simp at ht
  | cons x t =>
    simp only [hsl] at ht
    by_cases hx : x = '#'
    · rw [if_pos hx] at ht
      subst hx
      rw [List.dropWhile_cons, if_pos (by simp), ht, List.dropWhile_cons,
        if_neg (by simp [hex_ne_hash ha])]
    · rw [if_neg hx] at ht
      rw [List.dropWhile_cons, if_neg (by simp [hx]), ht]

/-- C2 (amended): on a valid 6-hex-digit string (optional leading `#`),
`hex_to_rgb` succeeds and each returned component is in `[0, 255]`.
(The original claim's converse — failure on every other string — is false;
see the counterexample.) -/
theorem hex_to_rgb_six_hex_ok (s : String) (h : isValidSixHex s = true) :
    ∃ r g b : Int, hex_to_rgb s = some (r, g, b) ∧
      0 ≤ r ∧ r ≤ 255 ∧ 0 ≤ g ∧ g ≤ 255 ∧ 0 ≤ b ∧ b ≤ 255 := by
  obtain ⟨a, b, c, d, e, f, hdrop, ha, hb, hc, hd, he, hf⟩ := lstrip_of_valid h
  refine ⟨_, _, _, ?_, ?_, pyIntBase16_pair_bounds ha hb, ?_,
    pyIntBase16_pair_bounds hc hd, ?_, pyIntBase16_pair_bounds he hf⟩
  · rw [hex_to_rgb]
    simp only [hdrop]
    have s0 : pySlice [a, b, c, d, e, f] 0 = [a, b] := rfl
    have s2 : pySlice [a, b, c, d, e, f] 2 = [c, d] := rfl
    have s4 : pySlice [a, b, c, d, e, f] 4 = [e, f] := rfl
    rw [s0, s2, s4, pyIntBase16_pair ha hb, pyIntBase16_pair hc hd,
      pyIntBase16_pair he hf]
  · positivity
  · positivity
  · positivity

/-- C2 counterexample: `"1234567"` is not a 6-hex-digit string, yet
`hex_to_rgb` succeeds on it (the slices `[0:2]`, `[2:4]`, `[4:6]` silently
ignore the seventh character), contradicting "fails with InvalidColorFormat
for every other input string". -/
theorem hex_to_rgb_seven_digits_succeeds :
    isValidSixHex "1234567" = false ∧ hex_to_rgb "1234567" = some (18, 52, 86) := by
  constructor <;> rfl

/-- C3 counterexample: `hex_to_rgba` does not clamp the alpha channel; with
`alpha = 300` the result carries `300`, not `255`. -/
theorem hex_to_rgba_alpha_not_clamped :
    hex_to_rgba "FFFFFF" 300 = some (255, 255, 255, 300) := by rfl

/-- C3 (amended): for every string whose RGB triple parses, `hex_to_rgba`
returns that triple with the given alpha appended unchanged (no clamping). -/
theorem hex_to_rgba_alpha_passthrough (s : String) (alpha r g b : Int)
    (h : hex_to_rgb s = some (r, g, b)) :
    hex_to_rgba s alpha = some (r, g, b, alpha) := by
  rw [hex_to_rgba, h]

/-- C8: on a valid 6-hex-digit color string, `hex_to_rgba` with the default
alpha returns exactly the `hex_to_rgb` triple extended with `255`. -/
theorem hex_to_rgba_default_roundtrip (s : String) (r g b : Int)
    (hv : isValidSixHex s = true) (h : hex_to_rgb s = some (r, g, b)) :
    hex_to_rgba s = some (r, g, b, 255) := by
  rw [hex_to_rgba, h]

/-- Witness for C2's amended theorem at `"#FF4081"`. -/
theorem hex_to_rgb_six_hex_ok_witness :
    isValidSixHex "#FF4081" = true ∧
      (∃ r g b : Int, hex_to_rgb "#FF4081" = some (r, g, b) ∧
        0 ≤ r ∧ r ≤ 255 ∧ 0 ≤ g ∧ g ≤ 255 ∧ 0 ≤ b ∧ b ≤ 255) :=
  ⟨by decide, hex_to_rgb_six_hex_ok "#FF4081" (by decide)⟩

/-- Witness for C3's amended theorem at `"#7B1FA2"` with alpha `64`. -/
theorem hex_to_rgba_alpha_passthrough_witness :
    hex_to_rgb "#7B1FA2" = some (123, 31, 162) ∧
      hex_to_rgba "#7B1FA2" 64 = some (123, 31, 162, 64) :=
  ⟨by rfl, hex_to_rgba_alpha_passthrough "#7B1FA2" 64 123 31 162 (by rfl)⟩

/-- Witness for C8 at `"#212121"`. -/
theorem hex_to_rgba_default_roundtrip_witness :
    isValidSixHex "#212121" = true ∧ hex_to_rgb "#212121" = some (33, 33, 33) ∧
      hex_to_rgba "#212121" = some (33, 33, 33, 255) :=
  ⟨by decide, by rfl, hex_to_rgba_default_roundtrip "#212121" 33 33 33 (by decide) (by rfl)⟩

/-! ## Arithmetic infrastructure -/

theorem fdiv_two (n : Int) : Int.fdiv n 2 = n / 2 := Int.fdiv_eq_ediv n (by norm_num)

theorem fdiv_three (n : Int) : Int.fdiv n 3 = n / 3 := Int.fdiv_eq_ediv n (by norm_num)

theorem fdiv_four (n : Int) : Int.fdiv n 4 = n / 4 := Int.fdiv_eq_ediv n (by norm_num)

/-- A fold whose step fixes the accumulator on every list element returns the
initial accumulator. -/
theorem foldl_fix {α β : Type} (f : β → α → β) (l : List α) (b : β)
    (h : ∀ a ∈ l, ∀ acc, f acc a = acc) : l.foldl f b = b := by
  induction l with
  | nil => rfl
  | cons a tl ih =>
    rw [List.foldl_cons, h a (List.mem_cons_self a tl)]
    exact ih fun a2 ha2 acc => h a2 (List.mem_cons_of_mem _ ha2) acc

/-- Shrinking both legs of a right triangle inside a circle of radius `R + t`
by `t` lands it inside the circle of radius `R`. -/
theorem sq_shrink {u v R t : Int} (hu : 0 ≤ u) (hv : 0 ≤ v) (hR : 0 ≤ R) (ht : 0 ≤ t)
    (h : u * u + v * v ≤ (R + t) * (R + t)) :
    max 0 (u - t) * max 0 (u - t) + max 0 (v - t) * max 0 (v - t) ≤ R * R := by
  rcases le_or_lt u t with h1 | h1 <;> rcases le_or_lt v t with h2 | h2
  · rw [show max 0 (u - t) = 0 by omega, show max 0 (v - t) = 0 by omega]
    nlinarith
  · rw [show max 0 (u - t) = 0 by omega, show max 0 (v - t) = v - t by omega]
    nlinarith
  · rw [show max 0 (u - t) = u - t by omega, show max 0 (v - t) = 0 by omega]
    nlinarith
  · rw [show max 0 (u - t) = u - t by omega, show max 0 (v - t) = v - t by omega]
    rcases le_or_lt (u - t + (v - t)) R with h3 | h3
    · nlinarith
    · nlinarith

theorem effRadius_nonneg (a b c d r : Int) : 0 ≤ effRadius a b c d r := by
  unfold effRadius; omega

theorem edgeGap_nonneg (lo hi x : Int) : 0 ≤ edgeGap lo hi x := by
  unfold edgeGap; omega

/-- Monotonicity of the rounded-rectangle shape over symmetric insets of the
same canvas: if the inner-shape corner centers sit at least as deep as the
outer-shape corner centers, membership transfers outward. -/
theorem inRR_inset_subset {w h a1 a2 r1 r2 x y : Int} (ha12 : a1 ≤ a2)
    (hsum : a1 + effRadius a1 a1 (w - 1 - a1) (h - 1 - a1) r1 ≤
      a2 + effRadius a2 a2 (w - 1 - a2) (h - 1 - a2) r2)
    (hmem : inRR a2 a2 (w - 1 - a2) (h - 1 - a2) r2 x y) :
    inRR a1 a1 (w - 1 - a1) (h - 1 - a1) r1 x y := by
  have hr1 := effRadius_nonneg a1 a1 (w - 1 - a1) (h - 1 - a1) r1
  have hr2 := effRadius_nonneg a2 a2 (w - 1 - a2) (h - 1 - a2) r2
  obtain ⟨hx1, hx2, hy1, hy2, hd⟩ := hmem
  unfold inRR
  set p1 : Int := effRadius a1 a1 (w - 1 - a1) (h - 1 - a1) r1 with hp1
  set p2 : Int := effRadius a2 a2 (w - 1 - a2) (h - 1 - a2) r2 with hp2
  set u : Int := edgeGap (a2 + p2) (w - 1 - a2 - p2) x with hu
  set v : Int := edgeGap (a2 + p2) (h - 1 - a2 - p2) y with hv
  have hun : 0 ≤ u := edgeGap_nonneg _ _ _
  have hvn : 0 ≤ v := edgeGap_nonneg _ _ _
  refine ⟨by omega, by omega, by omega, by omega, ?_⟩
  have ht : (0 : Int) ≤ max 0 (p2 - p1) := le_max_left _ _
  have hub : edgeGap (a1 + p1) (w - 1 - a1 - p1) x ≤ max 0 (u - max 0 (p2 - p1)) := by
    rw [hu]; unfold edgeGap; omega
  have hvb : edgeGap (a1 + p1) (h - 1 - a1 - p1) y ≤ max 0 (v - max 0 (p2 - p1)) := by
    rw [hv]; unfold edgeGap; omega
  have hsq : u * u + v * v ≤ (p1 + max 0 (p2 - p1)) * (p1 + max 0 (p2 - p1)) := by
    have h2 : p2 ≤ p1 + max 0 (p2 - p1) := by omega
    nlinarith
  have key := sq_shrink hun hvn hr1 ht hsq
  have e1 : edgeGap (a1 + p1) (w - 1 - a1 - p1) x * edgeGap (a1 + p1) (w - 1 - a1 - p1) x ≤
      max 0 (u - max 0 (p2 - p1)) * max 0 (u - max 0 (p2 - p1)) :=
    mul_le_mul hub hub (edgeGap_nonneg _ _ _) (le_max_left _ _)
  have e2 : edgeGap (a1 + p1) (h - 1 - a1 - p1) y * edgeGap (a1 + p1) (h - 1 - a1 - p1) y ≤
      max 0 (v - max 0 (p2 - p1)) * max 0 (v - max 0 (p2 - p1)) :=
    mul_le_mul hvb hvb (edgeGap_nonneg _ _ _) (le_max_left _ _)
  linarith [e1, e2, key]

/-- The floor-midpoint pixel of the canvas lies in every rounded rectangle
that is a symmetric inset `a` of the canvas with `2a` smaller than both
sides, whatever the requested radius. -/
theorem center_inRR (w h a r : Int) (ha : 0 ≤ a) (hw : 2 * a < w) (hh : 2 * a < h) :
    inRR a a (w - 1 - a) (h - 1 - a) r (w / 2) (h / 2) := by
  have hr := effRadius_nonneg a a (w - 1 - a) (h - 1 - a) r
  have hgx : edgeGap (a + effRadius a a (w - 1 - a) (h - 1 - a) r)
      (w - 1 - a - effRadius a a (w - 1 - a) (h - 1 - a) r) (w / 2) = 0 := by
    unfold edgeGap effRadius; omega
  have hgy : edgeGap (a + effRadius a a (w - 1 - a) (h - 1 - a) r)
      (h - 1 - a - effRadius a a (w - 1 - a) (h - 1 - a) r) (h / 2) = 0 := by
    unfold edgeGap effRadius; omega
  refine ⟨by omega, by omega, by omega, by omega, ?_⟩
  rw [hgx, hgy]
  nlinarith

/-- Each glow outline's one-pixel-inset shape still contains the interior
cutout shape: the inset corner centers sit no deeper than the cutout's. -/
theorem glow_inset_le (w h bw cr o : Int) (ho : 0 ≤ o) (hob : o + 1 ≤ bw)
    (hw : 2 * bw < w) (hh : 2 * bw < h) :
    (o + 1) + effRadius (o + 1) (o + 1) (w - 1 - (o + 1)) (h - 1 - (o + 1))
        (max 0 (cr - o) - 1) ≤
      bw + effRadius bw bw (w - 1 - bw) (h - 1 - bw) (max 0 (cr - bw / 2)) := by
  unfold effRadius; omega

/-- Discs are monotone in the radius. -/
theorem inDisc_radius_mono {cx cy r1 r2 x y : Int} (h1 : 0 ≤ r1) (hr : r1 ≤ r2)
    (h : inDisc cx cy r1 x y) : inDisc cx cy r2 x y := by
  unfold inDisc at *; nlinarith

/-- Interior transparency of the simple border frame: every pixel of the
interior cutout shape ends fully transparent — the cutout paints it clear and
no glow outline reaches back inside. -/
theorem simple_interior {w h bw : Int} (col : Int × Int × Int) (cr : Int) (glow : Bool)
    {x y : Int} (hbw : 0 ≤ bw) (hw : 2 * bw < w) (hh : 2 * bw < h)
    (hmem : inRR bw bw (w - 1 - bw) (h - 1 - bw) (max 0 (cr - Int.fdiv bw 2)) x y) :
    generate_simple_border_frame w h bw col cr glow x y = clearPx := by
  have hmem2 := hmem
  rw [fdiv_two] at hmem2
  simp only [generate_simple_border_frame]
  cases glow with
  | false =>
    rw [if_neg (by simp), if_pos hmem]
  | true =>
    rw [if_pos rfl, if_pos hmem]
    simp only [fdiv_three]
    apply foldl_fix
    intro i hi acc
    rw [List.mem_range] at hi
    have hgw : (0 : Int) ≤ bw / 3 := Int.ediv_nonneg hbw (by norm_num)
    have hio : (i : Int) < bw / 3 := by omega
    rw [if_neg]
    rintro ⟨-, hnot⟩
    apply hnot
    have e1 : w - 1 - (bw - bw / 3 + (i : Int)) - 1 =
        w - 1 - (bw - bw / 3 + (i : Int) + 1) := by ring
    have e2 : h - 1 - (bw - bw / 3 + (i : Int)) - 1 =
        h - 1 - (bw - bw / 3 + (i : Int) + 1) := by ring
    have e3 : bw - bw / 3 + (i : Int) + 1 = (bw - bw / 3 + (i : Int)) + 1 := rfl
    rw [e1, e2]
    exact inRR_inset_subset (by omega)
      (glow_inset_le w h bw cr (bw - bw / 3 + (i : Int)) (by omega) (by omega) hw hh) hmem2

/-- Interior transparency of the gradient frame: the interior cutout is the
final drawing step, so every pixel of the cutout shape is the zero pixel. -/
theorem gradient_interior {w h bw : Int} (sc ec : Int × Int × Int) (dir : String)
    {x y : Int}
    (hmem : inRR bw bw (w - 1 - bw) (h - 1 - bw)
      (max 0 (DEFAULT_CORNER_RADIUS - Int.fdiv bw 2)) x y) :
    generate_gradient_frame w h sc ec bw dir x y = clearPx := by
  simp only [generate_gradient_frame]
  rw [show bw + (w - bw * 2) - 1 = w - 1 - bw from by ring,
    show bw + (h - bw * 2) - 1 = h - 1 - bw from by ring, if_pos hmem]

/-- Interior transparency of the decorative frame away from the corner
discs: the cutout is drawn after the accent outline, and a pixel missed by
all four outer discs keeps its cleared value. -/
theorem decorative_interior {w h bw : Int} (pc sc ac : Int × Int × Int)
    (cs : String) (corners : Bool) {x y : Int}
    (hmem : inRR bw bw (w - 1 - bw) (h - 1 - bw)
      (max 0 ((if cs = "rounded" then DEFAULT_CORNER_RADIUS else 0) - Int.fdiv bw 2)) x y)
    (hd1 : ¬inDisc (bw * 2) (bw * 2) 20 x y)
    (hd2 : ¬inDisc (w - bw * 2) (bw * 2) 20 x y)
    (hd3 : ¬inDisc (bw * 2) (h - bw * 2) 20 x y)
    (hd4 : ¬inDisc (w - bw * 2) (h - bw * 2) 20 x y) :
    generate_decorative_frame w h pc sc ac bw cs corners x y = clearPx := by
  have m1 : ¬inDisc (bw * 2) (bw * 2) 10 x y :=
    fun hin => hd1 (inDisc_radius_mono (by norm_num) (by norm_num) hin)
  have m2 : ¬inDisc (w - bw * 2) (bw * 2) 10 x y :=
    fun hin => hd2 (inDisc_radius_mono (by norm_num) (by norm_num) hin)
  have m3 : ¬inDisc (bw * 2) (h - bw * 2) 10 x y :=
    fun hin => hd3 (inDisc_radius_mono (by norm_num) (by norm_num) hin)
  have m4 : ¬inDisc (w - bw * 2) (h - bw * 2) 10 x y :=
    fun hin => hd4 (inDisc_radius_mono (by norm_num) (by norm_num) hin)
  simp only [generate_decorative_frame]
  cases corners with
  | false =>
    rw [if_neg (by simp), if_pos hmem]
  | true =>
    rw [if_pos rfl]
    simp only [List.foldl_cons, List.foldl_nil]
    rw [if_pos hmem]
    rw [if_neg m1, if_neg hd1, if_neg m2, if_neg hd2, if_neg m3, if_neg hd3,
      if_neg m4, if_neg hd4]

/-- Interior transparency of the text frame at pixels missed by every text
draw call. -/
theorem text_interior {w h bw : Int} (env : FontEnv) (name : String)
    (date : Option String) (pc tc : Int × Int × Int) (pos : String)
    (fp : Option String) {x y : Int}
    (hbw : 0 ≤ bw) (hw : 2 * bw < w) (hh : 2 * bw < h)
    (hmem : inRR bw bw (w - 1 - bw) (h - 1 - bw)
      (max 0 (DEFAULT_CORNER_RADIUS - Int.fdiv bw 2)) x y)
    (hops : ∀ op ∈ textFrameOps w h name date bw pos,
      opMisses (env.resolveFont fp 48) (env.resolveFont fp 32) w x y op) :
    generate_text_frame env w h name date pc tc bw pos fp x y = clearPx := by
  have hbase := simple_interior pc DEFAULT_CORNER_RADIUS true hbw hw hh hmem
  simp only [generate_text_frame]
  rw [foldl_fix _ _ _ ?_, hbase]
  intro op hop acc
  obtain ⟨hm1, hm2⟩ := hops op hop
  simp only [applyDrawOp, hm1, hm2, Bool.false_eq_true, if_false]

/-- Interior transparency of the logo frame at pixels outside the pasted
logo rectangle (or with no logo at all). -/
theorem logo_interior {w h bw : Int} (env : FileEnv) (lp : Option String)
    (pc : Int × Int × Int) (pos : String) (size : Int) {x y : Int}
    (hbw : 0 ≤ bw) (hw : 2 * bw < w) (hh : 2 * bw < h)
    (hmem : inRR bw bw (w - 1 - bw) (h - 1 - bw)
      (max 0 (DEFAULT_CORNER_RADIUS - Int.fdiv bw 2)) x y)
    (hout : ∀ p, lp = some p → ∀ logo0, env.loadLogo p = some logo0 →
      ¬inPasteRect
        (logoPastePos w h bw pos (env.thumbLogo logo0 size).wdt (env.thumbLogo logo0 size).hgt)
        (env.thumbLogo logo0 size).wdt (env.thumbLogo logo0 size).hgt x y) :
    generate_logo_frame env w h lp pc bw pos size x y = clearPx := by
  have hbase := simple_interior pc DEFAULT_CORNER_RADIUS true hbw hw hh hmem
  cases lp with
  | none => simp only [generate_logo_frame]; exact hbase
  | some p =>
    simp only [generate_logo_frame]
    by_cases hp : p = ""
    · rw [if_pos hp]; exact hbase
    · rw [if_neg hp]
      split
      · exact hbase
      · rename_i logo0 hload
        rw [if_neg (hout p rfl logo0 hload)]
        exact hbase

/-- C1 (amended): for every generator, every pixel of the interior
rounded-rectangle cutout region (inset `border_width` from each edge) has
alpha 0 — except where a text draw call, the pasted logo, or (the amendment)
the decorative frame's corner discs of radius 20 at `(2*border_width,
2*border_width)` from each corner intentionally draw over it; and under
`border_width < min(width, height) / 2` the floor-midpoint canvas center
belongs to that interior region (last conjunct), so in particular the center
pixel of the simple and gradient frames always has alpha 0. -/
theorem interior_and_center_transparency :
    (∀ w h bw col cr glow x y, 0 ≤ bw → 2 * bw < w → 2 * bw < h →
      inRR bw bw (w - 1 - bw) (h - 1 - bw) (max 0 (cr - Int.fdiv bw 2)) x y →
      (generate_simple_border_frame w h bw col cr glow x y).a = 0) ∧
    (∀ w h sc ec bw dir x y,
      inRR bw bw (w - 1 - bw) (h - 1 - bw)
        (max 0 (DEFAULT_CORNER_RADIUS - Int.fdiv bw 2)) x y →
      (generate_gradient_frame w h sc ec bw dir x y).a = 0) ∧
    (∀ w h pc sc ac bw cs corners x y,
      inRR bw bw (w - 1 - bw) (h - 1 - bw)
        (max 0 ((if cs = "rounded" then DEFAULT_CORNER_RADIUS else 0) - Int.fdiv bw 2)) x y →
      ¬inDisc (bw * 2) (bw * 2) 20 x y → ¬inDisc (w - bw * 2) (bw * 2) 20 x y →
      ¬inDisc (bw * 2) (h - bw * 2) 20 x y → ¬inDisc (w - bw * 2) (h - bw * 2) 20 x y →
      (generate_decorative_frame w h pc sc ac bw cs corners x y).a = 0) ∧
    (∀ env w h name date pc tc bw pos fp x y, 0 ≤ bw → 2 * bw < w → 2 * bw < h →
      inRR bw bw (w - 1 - bw) (h - 1 - bw)
        (max 0 (DEFAULT_CORNER_RADIUS - Int.fdiv bw 2)) x y →
      (∀ op ∈ textFrameOps w h name date bw pos,
        opMisses (FontEnv.resolveFont env fp 48) (FontEnv.resolveFont env fp 32) w x y op) →
      (generate_text_frame env w h name date pc tc bw pos fp x y).a = 0) ∧
    (∀ env w h lp pc bw pos size x y, 0 ≤ bw → 2 * bw < w → 2 * bw < h →
      inRR bw bw (w - 1 - bw) (h - 1 - bw)
        (max 0 (DEFAULT_CORNER_RADIUS - Int.fdiv bw 2)) x y →
      (∀ p, lp = some p → ∀ logo0, FileEnv.loadLogo env p = some logo0 →
        ¬inPasteRect
          (logoPastePos w h bw pos (FileEnv.thumbLogo env logo0 size).wdt
            (FileEnv.thumbLogo env logo0 size).hgt)
          (FileEnv.thumbLogo env logo0 size).wdt (FileEnv.thumbLogo env logo0 size).hgt x y) →
      (generate_logo_frame env w h lp pc bw pos size x y).a = 0) ∧
    (∀ w h bw r, 0 ≤ bw → 2 * bw < w → 2 * bw < h →
      inRR bw bw (w - 1 - bw) (h - 1 - bw) r (w / 2) (h / 2)) := by
  refine ⟨?_, ?_, ?_, ?_, ?_, ?_⟩
  · intro w h bw col cr glow x y hbw hw hh hmem
    rw [simple_interior col cr glow hbw hw hh hmem]; rfl
  · intro w h sc ec bw dir x y hmem
    rw [gradient_interior sc ec dir hmem]; rfl
  · intro w h pc sc ac bw cs corners x y hmem h1 h2 h3 h4
    rw [decorative_interior pc sc ac cs corners hmem h1 h2 h3 h4]; rfl
  · intro env w h name date pc tc bw pos fp x y hbw hw hh hmem hops
    rw [text_interior env name date pc tc pos fp hbw hw hh hmem hops]; rfl
  · intro env w h lp pc bw pos size x y hbw hw hh hmem hout
    rw [logo_interior env lp pc pos size hbw hw hh hmem hout]; rfl
  · intro w h bw r hbw hw hh
    exact center_inRR w h bw r hbw hw hh

/-- C1 counterexample: for the decorative frame with `width = height = 200`
and `border_width = 49 < 200 / 2`, the corner discs (drawn after the interior
cutout at `(98, 98)`, `(102, 98)`, `(98, 102)`, `(102, 102)`) cover the exact
canvas center `(100, 100)`, which therefore has alpha `255`, not `0` — the
original claim excepted only text and logo overlays. -/
theorem decorative_center_opaque :
    2 * 49 < min 200 200 ∧
      (generate_decorative_frame 200 200 (255, 64, 129) (33, 33, 33) (255, 255, 255)
        49 "rounded" true 100 100).a = 255 := by
  constructor
  · decide
  · decide

/-- Witness for C1's amended theorem: concrete center pixels of all five
generators are fully transparent. -/
theorem interior_and_center_transparency_witness :
    (generate_simple_border_frame 400 600 40 (255, 64, 129) 60 true 200 300).a = 0 ∧
      (generate_gradient_frame 400 600 (0, 0, 0) (255, 255, 255) 50 "horizontal" 200 300).a = 0 ∧
      (generate_decorative_frame 2048 2732 (255, 64, 129) (33, 33, 33) (255, 255, 255)
        80 "rounded" true 1024 1366).a = 0 ∧
      (generate_text_frame sampleFontEnv 2048 2732 "Wedding" (some "Jan 31, 2026")
        (255, 64, 129) (255, 255, 255) 80 "bottom" none 1024 1366).a = 0 ∧
      (generate_logo_frame emptyFileEnv 2048 2732 (some "missing.png") (255, 64, 129)
        80 "bottom" 150 1024 1366).a = 0 :=
  ⟨interior_and_center_transparency.1 400 600 40 (255, 64, 129) 60 true 200 300
      (by decide) (by decide) (by decide) (by decide),
    interior_and_center_transparency.2.1 400 600 (0, 0, 0) (255, 255, 255) 50 "horizontal"
      200 300 (by decide),
    interior_and_center_transparency.2.2.1 2048 2732 (255, 64, 129) (33, 33, 33)
      (255, 255, 255) 80 "rounded" true 1024 1366
      (by decide) (by decide) (by decide) (by decide) (by decide),
    interior_and_center_transparency.2.2.2.1 sampleFontEnv 2048 2732 "Wedding"
      (some "Jan 31, 2026") (255, 64, 129) (255, 255, 255) 80 "bottom" none 1024 1366
      (by decide) (by decide) (by decide) (by decide) (by decide),
    interior_and_center_transparency.2.2.2.2.1 emptyFileEnv 2048 2732 (some "missing.png")
      (255, 64, 129) 80 "bottom" 150 1024 1366
      (by decide) (by decide) (by decide) (by decide)
      (by intro p hp logo0 hl; exact absurd hl (by simp [emptyFileEnv]))⟩

/-- A pixel strictly farther from the disc center than the radius is not in
the disc. -/
theorem not_inDisc_of_far {cx cy x y r : Int}
    (hfar : r * r < (x - cx) * (x - cx) + (y - cy) * (y - cy)) : ¬inDisc cx cy r x y := by
  unfold inDisc; omega

/-- The disc center is in the disc. -/
theorem inDisc_center (cx cy r : Int) (hr : 0 ≤ r) : inDisc cx cy r cx cy := by
  unfold inDisc; nlinarith

/-- C4 counterexample: with `width = height = 400` and `border_width = 80`
(the default), the decorative frame's corner circles at `(160, 160)` are
painted fully opaque inside the interior cutout region (inset 80), not on the
80-pixel border band — the pixel `(160, 160)` is opaque accent color, lies in
the interior rounded rectangle, and is not within `border_width` of any
edge. -/
theorem decorative_circles_inside_interior :
    generate_decorative_frame 400 400 (255, 64, 129) (33, 33, 33) (255, 255, 255)
        80 "rounded" true 160 160 = ⟨255, 255, 255, 255⟩ ∧
      inRR 80 80 (400 - 1 - 80) (400 - 1 - 80) (max 0 (60 - Int.fdiv 80 2)) 160 160 ∧
      ¬((160 : Int) < 80 ∨ (160 : Int) ≥ 400 - 80) := by
  refine ⟨by decide, by decide, by decide⟩

/-- C4 (amended): with corner decorations enabled, the four anchors sit at
`(border_width*2, border_width*2)` from the canvas corners; after the cutout
each anchor pixel is painted fully opaque in the accent color (inner disc of
radius 10) and a pixel 15px from an anchor is painted in the secondary color
(outer disc of radius 20); but — contrary to the original claim — whenever
`21 ≤ border_width` (and the anchors are inside the canvas) the anchor lies
inside the transparent interior region, not on the border band. -/
theorem decorative_corner_anchors (w h : Int) (pc sc ac : Int × Int × Int) (bw : Int)
    (hw : 40 < w - 4 * bw) (hh : 40 < h - 4 * bw) :
    generate_decorative_frame w h pc sc ac bw "rounded" true (bw * 2) (bw * 2) =
        rgbaOf ac 255 ∧
      generate_decorative_frame w h pc sc ac bw "rounded" true (w - bw * 2) (bw * 2) =
        rgbaOf ac 255 ∧
      generate_decorative_frame w h pc sc ac bw "rounded" true (bw * 2) (h - bw * 2) =
        rgbaOf ac 255 ∧
      generate_decorative_frame w h pc sc ac bw "rounded" true (w - bw * 2) (h - bw * 2) =
        rgbaOf ac 255 ∧
      generate_decorative_frame w h pc sc ac bw "rounded" true (bw * 2 + 15) (bw * 2) =
        rgbaOf sc 255 ∧
      (21 ≤ bw → 5 * bw + 20 < w → 5 * bw + 20 < h →
        inRR bw bw (w - 1 - bw) (h - 1 - bw)
          (max 0 (DEFAULT_CORNER_RADIUS - Int.fdiv bw 2)) (bw * 2) (bw * 2)) := by
  have hin10 : ∀ cx cy : Int, inDisc cx cy 10 cx cy :=
    fun cx cy => inDisc_center cx cy 10 (by norm_num)
  refine ⟨?_, ?_, ?_, ?_, ?_, ?_⟩
  · simp only [generate_decorative_frame, if_true, List.foldl_cons, List.foldl_nil]
    rw [if_neg (not_inDisc_of_far (by nlinarith)),
      if_neg (not_inDisc_of_far (by nlinarith)),
      if_neg (not_inDisc_of_far (by nlinarith)),
      if_neg (not_inDisc_of_far (by nlinarith)),
      if_neg (not_inDisc_of_far (by nlinarith)),
      if_neg (not_inDisc_of_far (by nlinarith)),
      if_pos (hin10 (bw * 2) (bw * 2))]
  · simp only [generate_decorative_frame, if_true, List.foldl_cons, List.foldl_nil]
    rw [if_neg (not_inDisc_of_far (by nlinarith)),
      if_neg (not_inDisc_of_far (by nlinarith)),
      if_neg (not_inDisc_of_far (by nlinarith)),
      if_neg (not_inDisc_of_far (by nlinarith)),
      if_pos (hin10 (w - bw * 2) (bw * 2))]
  · simp only [generate_decorative_frame, if_true, List.foldl_cons, List.foldl_nil]
    rw [if_neg (not_inDisc_of_far (by nlinarith)),
      if_neg (not_inDisc_of_far (by nlinarith)),
      if_pos (hin10 (bw * 2) (h - bw * 2))]
  · simp only [generate_decorative_frame, if_true, List.foldl_cons, List.foldl_nil]
    rw [if_pos (hin10 (w - bw * 2) (h - bw * 2))]
  · simp only [generate_decorative_frame, if_true, List.foldl_cons, List.foldl_nil]
    rw [if_neg (not_inDisc_of_far (by nlinarith)),
      if_neg (not_inDisc_of_far (by nlinarith)),
      if_neg (not_inDisc_of_far (by nlinarith)),
      if_neg (not_inDisc_of_far (by nlinarith)),
      if_neg (not_inDisc_of_far (by nlinarith)),
      if_neg (not_inDisc_of_far (by nlinarith)),
      if_neg (not_inDisc_of_far (by nlinarith)),
      if_pos (show inDisc (bw * 2) (bw * 2) 20 (bw * 2 + 15) (bw * 2) by
        unfold inDisc; nlinarith)]
  · intro hb hw5 hh5
    have hrn := effRadius_nonneg bw bw (w - 1 - bw) (h - 1 - bw)
      (max 0 (DEFAULT_CORNER_RADIUS - Int.fdiv bw 2))
    have hrub : effRadius bw bw (w - 1 - bw) (h - 1 - bw)
        (max 0 (DEFAULT_CORNER_RADIUS - Int.fdiv bw 2)) ≤
        max 0 (DEFAULT_CORNER_RADIUS - Int.fdiv bw 2) := by
      unfold effRadius; omega
    have hfd := fdiv_two bw
    have hDC : DEFAULT_CORNER_RADIUS = (60 : Int) := rfl
    set p : Int := effRadius bw bw (w - 1 - bw) (h - 1 - bw)
      (max 0 (DEFAULT_CORNER_RADIUS - Int.fdiv bw 2)) with hpdef
    have hdx : edgeGap (bw + p) (w - 1 - bw - p) (bw * 2) ≤ max 0 (p - bw) := by
      unfold edgeGap; omega
    have hdy : edgeGap (bw + p) (h - 1 - bw - p) (bw * 2) ≤ max 0 (p - bw) := by
      unfold edgeGap; omega
    refine ⟨by omega, by omega, by omega, by omega, ?_⟩
    have hgx := edgeGap_nonneg (bw + p) (w - 1 - bw - p) (bw * 2)
    have hgy := edgeGap_nonneg (bw + p) (h - 1 - bw - p) (bw * 2)
    rcases le_or_lt p bw with hpb | hpb
    · have hz : max 0 (p - bw) = 0 := by omega
      rw [hz] at hdx hdy
      nlinarith
    · have hm : max 0 (p - bw) = p - bw := by omega
      rw [hm] at hdx hdy
      have hB : 2 * p ≤ 121 - bw := by omega
      have key : 2 * ((p - bw) * (p - bw)) ≤ p * p := by
        nlinarith [mul_nonneg (show (0:Int) ≤ p - bw - 1 by omega)
            (show (0:Int) ≤ 121 - bw - 2 * p by omega),
          mul_nonneg (show (0:Int) ≤ bw - 21 by omega)
            (show (0:Int) ≤ p - bw - 1 by omega),
          sq_nonneg (bw - 21)]
      nlinarith [mul_le_mul hdx hdx hgx (show (0:Int) ≤ p - bw by omega),
        mul_le_mul hdy hdy hgy (show (0:Int) ≤ p - bw by omega)]

/-- Witness for C4's amended theorem at the default iPad canvas with
`border_width = 80`. -/
theorem decorative_corner_anchors_witness :
    generate_decorative_frame 2048 2732 (255, 64, 129) (33, 33, 33) (255, 255, 255)
        80 "rounded" true 160 160 = ⟨255, 255, 255, 255⟩ ∧
      generate_decorative_frame 2048 2732 (255, 64, 129) (33, 33, 33) (255, 255, 255)
        80 "rounded" true 175 160 = ⟨33, 33, 33, 255⟩ ∧
      inRR 80 80 (2048 - 1 - 80) (2732 - 1 - 80)
        (max 0 (DEFAULT_CORNER_RADIUS - Int.fdiv 80 2)) 160 160 := by
  have h := decorative_corner_anchors 2048 2732 (255, 64, 129) (33, 33, 33) (255, 255, 255)
    80 (by decide) (by decide)
  exact ⟨h.1, h.2.2.2.2.1, h.2.2.2.2.2 (by decide) (by decide) (by decide)⟩

/-- C5: when the logo path is `None` (or the empty string is not involved and
the file does not exist), `generate_logo_frame` performs no compositing and
every pixel equals the simple border frame with the same width, height,
border width and border color (glow on, default corner radius — the values
`generate_logo_frame` passes). -/
theorem logo_frame_missing_logo (env : FileEnv) (w h : Int) (lp : Option String)
    (pc : Int × Int × Int) (bw : Int) (pos : String) (size : Int)
    (hmiss : lp = none ∨ ∃ p, lp = some p ∧ env.loadLogo p = none) :
    ∀ x y, generate_logo_frame env w h lp pc bw pos size x y =
      generate_simple_border_frame w h bw pc DEFAULT_CORNER_RADIUS true x y := by
  intro x y
  rcases hmiss with rfl | ⟨p, rfl, hnone⟩
  · rfl
  · simp only [generate_logo_frame]
    by_cases hp : p = ""
    · rw [if_pos hp]
    · rw [if_neg hp]
      split
      · rfl
      · rename_i logo0 hload
        rw [hnone] at hload
        exact absurd hload (by simp)

/-- Witness for C5 in a concrete environment with no logo files. -/
theorem logo_frame_missing_logo_witness :
    generate_logo_frame emptyFileEnv 2048 2732 (some "missing.png") (255, 64, 129)
        80 "bottom" 150 5 5 =
      generate_simple_border_frame 2048 2732 80 (255, 64, 129) DEFAULT_CORNER_RADIUS true 5 5 :=
  logo_frame_missing_logo emptyFileEnv 2048 2732 (some "missing.png") (255, 64, 129)
    80 "bottom" 150 (Or.inr ⟨"missing.png", rfl, rfl⟩) 5 5

/-- Any position other than `top`/`corners` resolves to the bottom paste
position. -/
theorem logoPastePos_fallback (w h bw lw lh : Int) (pos : String)
    (h1 : pos ≠ "top") (h2 : pos ≠ "corners") :
    logoPastePos w h bw pos lw lh = logoPastePos w h bw "bottom" lw lh := by
  unfold logoPastePos
  by_cases hb : pos = "bottom"
  · rw [hb]
  · rw [if_neg hb, if_neg h1, if_neg h2, if_pos rfl]

/-- C10: in the logo frame, any `logo_position` other than `top` or
`corners` is treated as `bottom`: the paste position is the horizontally
centered bottom-band formula and the whole image is pixel-identical to the
`bottom` invocation; no failure occurs for unknown values. -/
theorem logo_unknown_position_bottom (env : FileEnv) (w h : Int) (lp : Option String)
    (pc : Int × Int × Int) (bw : Int) (pos : String) (size : Int)
    (h1 : pos ≠ "top") (h2 : pos ≠ "corners") :
    (∀ lw lh, logoPastePos w h bw pos lw lh =
      (Int.fdiv (w - lw) 2, h - bw + Int.fdiv (bw - lh) 2)) ∧
    ∀ x y, generate_logo_frame env w h lp pc bw pos size x y =
      generate_logo_frame env w h lp pc bw "bottom" size x y := by
  constructor
  · intro lw lh
    rw [logoPastePos_fallback w h bw lw lh pos h1 h2]
    unfold logoPastePos
    rw [if_pos rfl]
  · intro x y
    cases lp with
    | none => rfl
    | some p =>
      simp only [generate_logo_frame]
      by_cases hp : p = ""
      · simp only [if_pos hp]
      · simp only [if_neg hp]
        rcases henv : env.loadLogo p with _ | logo0
        · rfl
        · simp only [henv, logoPastePos_fallback w h bw _ _ pos h1 h2]

/-- Witness for C10 with an existing logo and the unknown position
`"center"`. -/
theorem logo_unknown_position_bottom_witness :
    logoPastePos 2048 2732 80 "center" 100 40 =
        (Int.fdiv (2048 - 100) 2, 2732 - 80 + Int.fdiv (80 - 40) 2) ∧
      generate_logo_frame oneLogoFileEnv 2048 2732 (some "logo.png") (255, 64, 129)
          80 "center" 150 1024 2680 =
        generate_logo_frame oneLogoFileEnv 2048 2732 (some "logo.png") (255, 64, 129)
          80 "bottom" 150 1024 2680 :=
  ⟨(logo_unknown_position_bottom oneLogoFileEnv 2048 2732 (some "logo.png") (255, 64, 129)
      80 "center" 150 (by decide) (by decide)).1 100 40,
    (logo_unknown_position_bottom oneLogoFileEnv 2048 2732 (some "logo.png") (255, 64, 129)
      80 "center" 150 (by decide) (by decide)).2 1024 2680⟩

/-- The interpolated channel at `num = 0` is exactly the start channel. -/
theorem gradChannel_zero {s e w : Int} (hw : w ≠ 0) : gradChannel s e 0 w = s := by
  unfold gradChannel
  rw [mul_zero, add_zero, Int.mul_tdiv_cancel _ hw]

/-- The interpolated channel at `num = w - 1` is within one unit of the end
channel, provided the channel difference does not exceed `w`. -/
theorem gradChannel_end_bounds {s e w : Int} (hw : 0 < w) (hs : 0 ≤ s) (he : 0 ≤ e)
    (h1 : e - s ≤ w) (h2 : s - e ≤ w) :
    e - 1 ≤ gradChannel s e (w - 1) w ∧ gradChannel s e (w - 1) w ≤ e + 1 := by
  unfold gradChannel
  have hnum : s * w + (e - s) * (w - 1) = e * (w - 1) + s := by ring
  rw [hnum]
  have hnn : (0 : Int) ≤ e * (w - 1) + s := by nlinarith
  rw [Int.tdiv_eq_ediv hnn (le_of_lt hw)]
  constructor
  · rw [Int.le_ediv_iff_mul_le hw]
    nlinarith
  · have hlt : e * (w - 1) + s < (e + 2) * w := by nlinarith
    have := (Int.ediv_lt_iff_lt_mul hw).mpr hlt
    omega

/-- RGB of a border pixel of the horizontal gradient frame: the masks only
touch alpha (outer rounding) or pixels of the interior cutout, so the RGB
channels are the interpolated values. -/
theorem gradient_border_rgb (w h bw : Int) (sc ec : Int × Int × Int) (x y : Int)
    (hin : x < bw ∨ x ≥ w - bw ∨ y < bw ∨ y ≥ h - bw)
    (hcut : ¬inRR bw bw (bw + (w - bw * 2) - 1) (bw + (h - bw * 2) - 1)
      (max 0 (DEFAULT_CORNER_RADIUS - Int.fdiv bw 2)) x y) :
    (generate_gradient_frame w h sc ec bw "horizontal" x y).r = gradChannel sc.1 ec.1 x w ∧
      (generate_gradient_frame w h sc ec bw "horizontal" x y).g =
        gradChannel sc.2.1 ec.2.1 x w ∧
      (generate_gradient_frame w h sc ec bw "horizontal" x y).b =
        gradChannel sc.2.2 ec.2.2 x w := by
  simp only [generate_gradient_frame, if_true]
  rw [if_neg hcut]
  refine ⟨?_, ?_, ?_⟩ <;> (split <;> rfl)

/-- C6 counterexample: with `width = 100`, `start_color = #000000`,
`end_color = #FFFFFF`, the border pixel in column `x = width - 1` has red
channel `int(255 * 99 / 100) = 252`, which is 3 units below the end color —
not within 1 unit as claimed. -/
theorem gradient_end_column_deviation :
    1 < 255 - (generate_gradient_frame 100 30 (0, 0, 0) (255, 255, 255)
      10 "horizontal" 99 15).r := by decide

/-- C6 (amended): for the horizontal gradient, every border pixel in column
`x = 0` has RGB exactly `start_color`; and every border pixel in column
`x = width - 1` has each channel within 1 unit of `end_color` provided each
channel difference `|end - start|` is at most `width` (always true when
`width > 255`; the counterexample shows it can fail otherwise). -/
theorem gradient_horizontal_columns (w h bw : Int) (sc ec : Int × Int × Int) (y : Int)
    (hw : 0 < w) (hbw : 1 ≤ bw)
    (hs1 : 0 ≤ sc.1) (hs2 : 0 ≤ sc.2.1) (hs3 : 0 ≤ sc.2.2)
    (he1 : 0 ≤ ec.1) (he2 : 0 ≤ ec.2.1) (he3 : 0 ≤ ec.2.2)
    (hd1 : ec.1 - sc.1 ≤ w) (hd1b : sc.1 - ec.1 ≤ w)
    (hd2 : ec.2.1 - sc.2.1 ≤ w) (hd2b : sc.2.1 - ec.2.1 ≤ w)
    (hd3 : ec.2.2 - sc.2.2 ≤ w) (hd3b : sc.2.2 - ec.2.2 ≤ w) :
    ((generate_gradient_frame w h sc ec bw "horizontal" 0 y).r = sc.1 ∧
      (generate_gradient_frame w h sc ec bw "horizontal" 0 y).g = sc.2.1 ∧
      (generate_gradient_frame w h sc ec bw "horizontal" 0 y).b = sc.2.2) ∧
    (ec.1 - 1 ≤ (generate_gradient_frame w h sc ec bw "horizontal" (w - 1) y).r ∧
      (generate_gradient_frame w h sc ec bw "horizontal" (w - 1) y).r ≤ ec.1 + 1) ∧
    (ec.2.1 - 1 ≤ (generate_gradient_frame w h sc ec bw "horizontal" (w - 1) y).g ∧
      (generate_gradient_frame w h sc ec bw "horizontal" (w - 1) y).g ≤ ec.2.1 + 1) ∧
    (ec.2.2 - 1 ≤ (generate_gradient_frame w h sc ec bw "horizontal" (w - 1) y).b ∧
      (generate_gradient_frame w h sc ec bw "horizontal" (w - 1) y).b ≤ ec.2.2 + 1) := by
  have h0 := gradient_border_rgb w h bw sc ec 0 y
    (Or.inl (by omega))
    (fun hc => by have := hc.1; omega)
  have h1 := gradient_border_rgb w h bw sc ec (w - 1) y
    (Or.inr (Or.inl (by omega)))
    (fun hc => by have := hc.2.1; omega)
  refine ⟨?_, ?_, ?_, ?_⟩
  · rw [h0.1, h0.2.1, h0.2.2]
    exact ⟨gradChannel_zero (by omega), gradChannel_zero (by omega),
      gradChannel_zero (by omega)⟩
  · rw [h1.1]; exact gradChannel_end_bounds hw hs1 he1 hd1 hd1b
  · rw [h1.2.1]; exact gradChannel_end_bounds hw hs2 he2 hd2 hd2b
  · rw [h1.2.2]; exact gradChannel_end_bounds hw hs3 he3 hd3 hd3b

/-- Witness for C6's amended theorem at a 400×600 canvas with the default
pink-to-purple colors. -/
theorem gradient_horizontal_columns_witness :
    ((generate_gradient_frame 400 600 (255, 64, 129) (123, 31, 162)
        40 "horizontal" 0 300).r = 255 ∧
      (generate_gradient_frame 400 600 (255, 64, 129) (123, 31, 162)
        40 "horizontal" 0 300).g = 64 ∧
      (generate_gradient_frame 400 600 (255, 64, 129) (123, 31, 162)
        40 "horizontal" 0 300).b = 129) ∧
    ((123 : Int) - 1 ≤ (generate_gradient_frame 400 600 (255, 64, 129) (123, 31, 162)
        40 "horizontal" 399 300).r ∧
      (generate_gradient_frame 400 600 (255, 64, 129) (123, 31, 162)
        40 "horizontal" 399 300).r ≤ 123 + 1) := by
  have h := gradient_horizontal_columns 400 600 40 (255, 64, 129) (123, 31, 162) 300
    (by decide) (by decide) (by decide) (by decide) (by decide) (by decide) (by decide)
    (by decide) (by decide) (by decide) (by decide) (by decide) (by decide) (by decide)
  exact ⟨h.1, by have := h.2.1; norm_num at this ⊢; exact this⟩

/-- C7: the text placement policy of `generate_text_frame`, as draw calls.
For `bottom`/`both` the event name goes at `height - border_width +
(border_width - 48) // 2`; a truthy date goes 50px lower exactly when its
bottom `date_y + 32` is strictly above the canvas bottom; for `both` with a
truthy date the top band gets the date offset 8px down — not the event name —
and for `top` (or `both` without a truthy date) the top band gets the event
name. -/
theorem text_position_layout (w h : Int) (name : String) (date : Option String)
    (bw : Int) (pos : String) :
    ((pos = "bottom" ∨ pos = "both") →
      DrawOp.mk name (h - bw + Int.fdiv (bw - 48) 2) FontKind.title ∈
        textFrameOps w h name date bw pos) ∧
    (∀ d, date = some d → d ≠ "" → (pos = "bottom" ∨ pos = "both") →
      h - bw + Int.fdiv (bw - 48) 2 + 50 + 32 < h →
      DrawOp.mk d (h - bw + Int.fdiv (bw - 48) 2 + 50) FontKind.date ∈
        textFrameOps w h name date bw pos) ∧
    (∀ d, date = some d → d ≠ "" →
      ¬(h - bw + Int.fdiv (bw - 48) 2 + 50 + 32 < h) →
      (pos = "bottom" ∨ (pos = "both" ∧ h ≠ bw - 42)) →
      DrawOp.mk d (h - bw + Int.fdiv (bw - 48) 2 + 50) FontKind.date ∉
        textFrameOps w h name date bw pos) ∧
    (∀ d, date = some d → d ≠ "" → pos = "both" →
      DrawOp.mk d (Int.fdiv (bw - 48) 2 + 8) FontKind.date ∈
        textFrameOps w h name date bw pos) ∧
    ((pos = "top" ∨ (pos = "both" ∧ pyTruthy date = false)) →
      DrawOp.mk name (Int.fdiv (bw - 48) 2) FontKind.title ∈
        textFrameOps w h name date bw pos) ∧
    (∀ d, date = some d → d ≠ "" → pos = "both" → h ≠ bw →
      DrawOp.mk name (Int.fdiv (bw - 48) 2) FontKind.title ∉
        textFrameOps w h name date bw pos) := by
  refine ⟨?_, ?_, ?_, ?_, ?_, ?_⟩
  · rintro (rfl | rfl) <;>
      · simp only [textFrameOps]
        by_cases ht : pyTruthy date = true <;>
          simp [ht, List.mem_append] <;>
          try (split <;> simp)
  · rintro d rfl hne (rfl | rfl) hfit <;>
      · have ht : pyTruthy (some d) = true := by simp [pyTruthy, hne]
        simp only [textFrameOps, ht]
        simp [hfit, Option.getD, List.mem_append]
  · rintro d rfl hne hnofit (rfl | ⟨rfl, hcol⟩) <;>
      · have ht : pyTruthy (some d) = true := by simp [pyTruthy, hne]
        simp only [textFrameOps, ht]
        simp [hnofit, Option.getD, List.mem_append, DrawOp.mk.injEq]
        try omega
  · rintro d rfl hne rfl
    have ht : pyTruthy (some d) = true := by simp [pyTruthy, hne]
    simp only [textFrameOps, ht]
    simp [Option.getD, List.mem_append]
  · rintro (rfl | ⟨rfl, hfalse⟩)
    · simp only [textFrameOps]
      simp [List.mem_append]
    · simp only [textFrameOps, hfalse]
      by_cases hb : pyTruthy date = true
      · rw [hb] at hfalse; cases hfalse
      · simp [hb, List.mem_append]
  · rintro d rfl hne rfl hneq
    have ht : pyTruthy (some d) = true := by simp [pyTruthy, hne]
    simp only [textFrameOps, ht]
    simp [Option.getD, List.mem_append, DrawOp.mk.injEq]
    split <;> simp [DrawOp.mk.injEq] <;> omega

/-- Witness for C7 at the default canvas, `both`, with a truthy date whose
bottom placement does not fit (`2750 ≥ 2732`). -/
theorem text_position_layout_witness :
    DrawOp.mk "Wedding" (2732 - 80 + Int.fdiv (80 - 48) 2) FontKind.title ∈
        textFrameOps 2048 2732 "Wedding" (some "Jan 31") 80 "both" ∧
      DrawOp.mk "Jan 31" (2732 - 80 + Int.fdiv (80 - 48) 2 + 50) FontKind.date ∉
        textFrameOps 2048 2732 "Wedding" (some "Jan 31") 80 "both" ∧
      DrawOp.mk "Jan 31" (Int.fdiv (80 - 48) 2 + 8) FontKind.date ∈
        textFrameOps 2048 2732 "Wedding" (some "Jan 31") 80 "both" ∧
      DrawOp.mk "Wedding" (Int.fdiv (80 - 48) 2) FontKind.title ∉
        textFrameOps 2048 2732 "Wedding" (some "Jan 31") 80 "both" := by
  have h := text_position_layout 2048 2732 "Wedding" (some "Jan 31") 80 "both"
  exact ⟨h.1 (Or.inr rfl),
    h.2.2.1 "Jan 31" rfl (by decide) (by decide) (Or.inr ⟨rfl, by decide⟩),
    h.2.2.2.1 "Jan 31" rfl (by decide) rfl,
    h.2.2.2.2.2 "Jan 31" rfl (by decide) rfl (by decide)⟩

/-- C9: the text frame generator is deterministic — it is a pure function of
its parameter bundle and of the font environment (the outcome of font-file
resolution), reading nothing else, so two invocations with identical
parameters and identical font-file environment produce bit-identical
images. -/
theorem text_frame_deterministic (env1 env2 : FontEnv) (p1 p2 : TextParams)
    (henv : env1 = env2) (hp : p1 = p2) :
    textFrameImage env1 p1 = textFrameImage env2 p2 := by
  subst henv; subst hp; rfl

/-- Witness for C9 at a concrete environment and parameter bundle. -/
theorem text_frame_deterministic_witness :
    textFrameImage sampleFontEnv sampleTextParams =
      textFrameImage sampleFontEnv sampleTextParams :=
  text_frame_deterministic sampleFontEnv sampleFontEnv sampleTextParams sampleTextParams
    rfl rfl
